import Mathlib

/-!
# Verification of the PBPS Emote Search service core

A shallow embedding of `src/main.py` of the PBPS-Emote-Search repository:
the normalization/search algorithm, the list-cache staleness policy
(`ensure_emote_list`), the tile dedup/sort pipeline
(`fetch_emote_tiles_rendered`, post-render part), the detail extractor
(`parse_emote_details`), and the read API handlers (`api_emotes`,
`api_refresh`, and the enrichment step of `api_emote_detail`).

Python strings are modelled as `List Char` (ASCII fidelity); `time.time()`
values and max-age seconds as `ℚ`; the rendering layer (Playwright) and the
HTML parser (BeautifulSoup) are external collaborators, so functions take
their outputs (a fetch result, a flattened line list, an anchor list) as
inputs.
-/

namespace PBPS

/-! ## Characters and Python string helpers -/

/-- The characters kept by `norm`'s regex `[^a-z0-9]+` substitution:
lower-case ASCII letters and digits. -/
def isLowerAlnum (c : Char) : Bool :=
  ('a' ≤ c && c ≤ 'z') || ('0' ≤ c && c ≤ '9')

/-- ASCII whitespace, as recognised by Python's `str.split()` / `str.strip()`. -/
def isSpaceChar (c : Char) : Bool :=
  c = ' ' || c = '\t' || c = '\n' || c = '\x0d' || c = '\x0b' || c = '\x0c'

/-- `str.lower()` on an ASCII string: lower-case every character. -/
def pyLower (s : List Char) : List Char :=
  s.map Char.toLower

/-- `str.strip()` with no argument: drop leading and trailing whitespace. -/
def pyStrip (s : List Char) : List Char :=
  ((s.dropWhile isSpaceChar).reverse.dropWhile isSpaceChar).reverse

/-- Helper for `pySplit`: accumulates the current word in reverse. -/
def pySplitAux : List Char → List Char → List (List Char)
  | [], acc => if acc.isEmpty then [] else [acc.reverse]
  | c :: cs, acc =>
    if isSpaceChar c then
      if acc.isEmpty then pySplitAux cs [] else acc.reverse :: pySplitAux cs []
    else pySplitAux cs (c :: acc)

/-- `str.split()` with no argument: split on runs of whitespace, discarding
empty words. -/
def pySplit (s : List Char) : List (List Char) :=
  pySplitAux s []

/-- `norm` (main.py line 22-24): lowercase, then delete every character
outside `[a-z0-9]`. -/
def norm (s : List Char) : List Char :=
  (pyLower s).filter isLowerAlnum

/-- `p` is a leading segment of `s` (character-by-character). -/
def leadsList : List Char → List Char → Bool
  | [], _ => true
  | _ :: _, [] => false
  | a :: p, b :: s => a = b && leadsList p s

/-- Python's `p in s` on strings: `p` occurs contiguously somewhere in `s`. -/
def isSubstr (p : List Char) : List Char → Bool
  | [] => leadsList p []
  | b :: rest => leadsList p (b :: rest) || isSubstr p rest

/-! ## Tiles and search (`api_emotes`, main.py lines 196-212) -/

/-- A catalog tile `{name, imageUrl}`. -/
structure Tile where
  name : List Char
  imageUrl : Option (List Char)
deriving DecidableEq, Repr

/-- The filtering step of `api_emotes` (main.py lines 204-206): when the
query is non-empty, keep the tiles whose normalized name contains every
normalized whitespace-separated term of the query. -/
def searchFilter (q : List Char) (tiles : List Tile) : List Tile :=
  if q = [] then tiles
  else
    let terms := ((pySplit q).filter fun t => pyStrip t ≠ []).map norm
    tiles.filter fun t => terms.all fun term => isSubstr term (norm t.name)

/-- The `api_emotes` response body (main.py lines 208-212):
`count` before truncation, the cache's timestamp, and the first `limit`
filtered tiles. -/
structure SearchResponse where
  count : ℕ
  updatedAt : ℚ
  items : List Tile
deriving DecidableEq, Repr

/-! ## The list cache and `ensure_emote_list` (main.py lines 99-119) -/

/-- `_emote_list_cache` (main.py line 18): a single mutable slot. -/
structure ListCache where
  updatedAt : ℚ
  tiles : List Tile
deriving DecidableEq, Repr

/-- Outcome of the external call `fetch_emote_tiles_rendered()`: either the
extracted tile list, or a Playwright render failure
(`PlaywrightTimeoutError` / `PlaywrightError`). -/
inductive FetchResult where
  | ok (tiles : List Tile)
  | renderError
deriving DecidableEq, Repr

/-- How a call to `ensure_emote_list` terminates: returned early from the
fresh cache, raised `HTTPException(500)`, raised `HTTPException(502)`, or
stored a fresh list and returned. -/
inductive EnsureOutcome where
  | cached
  | error500
  | error502
  | success
deriving DecidableEq, Repr

/-- Default `max_age_seconds` of `ensure_emote_list` (main.py line 99). -/
def DEFAULT_MAX_AGE : ℚ := 6 * 60 * 60

/-- `ensure_emote_list(max_age_seconds)` (main.py lines 99-119), with the
ambient state made explicit: `now` is `time.time()`, `fetch` the result of
`fetch_emote_tiles_rendered()` (consulted only when the cache is not
reused), and `c` the cache slot.  Returns the new cache state and outcome. -/
def ensure_emote_list (max_age_seconds now : ℚ) (fetch : FetchResult)
    (c : ListCache) : ListCache × EnsureOutcome :=
  if c.tiles ≠ [] ∧ now - c.updatedAt < max_age_seconds then
    (c, .cached)
  else
    match fetch with
    | .renderError => (c, .error500)
    | .ok tiles =>
      if tiles = [] then
        ({ c with updatedAt := 0 }, .error502)
      else
        ({ tiles := tiles, updatedAt := now }, .success)

/-- The full `api_emotes` handler after `ensure_emote_list` has succeeded
(main.py lines 201-212), reading the cache state `c`. -/
def api_emotes (q : List Char) (limit : ℕ) (c : ListCache) : SearchResponse :=
  let tiles := searchFilter q c.tiles
  { count := tiles.length, updatedAt := c.updatedAt, items := tiles.take limit }

/-- `api_refresh` (main.py lines 215-224): zero the timestamp, empty the
tile list, then force a refetch via `ensure_emote_list(max_age_seconds=0)`.
Returns the final cache state and the outcome of the forced refetch. -/
def api_refresh (now : ℚ) (fetch : FetchResult) (_c : ListCache) :
    ListCache × EnsureOutcome :=
  ensure_emote_list 0 now fetch { updatedAt := 0, tiles := [] }

/-! ## Tile dedup and sort (`fetch_emote_tiles_rendered`, main.py lines 85-96) -/

/-- Lexicographic `≤` on character lists by code point: Python's `str <= str`. -/
def lexLe : List Char → List Char → Bool
  | [], _ => true
  | _ :: _, [] => false
  | a :: p, b :: s => if a = b then lexLe p s else decide (a < b)

/-- The sort key comparison of main.py line 95: compare names lowercased. -/
def tileLe (a b : Tile) : Bool :=
  lexLe (pyLower a.name) (pyLower b.name)

/-- Insert into an already sorted list, before the first element it is
`le`-below-or-equal: the stable insertion step. -/
def insertSorted (le : Tile → Tile → Bool) (a : Tile) : List Tile → List Tile
  | [] => [a]
  | b :: l => if le a b then a :: b :: l else b :: insertSorted le a l

/-- Stable ascending sort.  `out.sort(key=lambda x: x["name"].lower())`
(main.py line 95) is Python's stable sort by the lowercased name; any stable
sort for the same total preorder computes the same list, so it is modelled
by stable insertion sort with `tileLe`. -/
def sortTiles (le : Tile → Tile → Bool) : List Tile → List Tile
  | [] => []
  | a :: l => insertSorted le a (sortTiles le l)

/-- The dedup loop of main.py lines 86-93: strip each raw name, skip it when
the stripped name is empty or already seen, otherwise record the stripped
name (first occurrence wins) with the raw image URL. -/
def dedupTiles (seen : List (List Char)) : List Tile → List Tile
  | [] => []
  | t :: rest =>
    let n := pyStrip t.name
    if n = [] ∨ n ∈ seen then dedupTiles seen rest
    else { name := n, imageUrl := t.imageUrl } :: dedupTiles (n :: seen) rest

/-- The post-render part of `fetch_emote_tiles_rendered` (main.py lines
85-96): de-duplicate, then sort case-insensitively by name. -/
def storedTiles (raw : List Tile) : List Tile :=
  sortTiles tileLe (dedupTiles [] raw)

/-! ## The detail extractor (`parse_emote_details`, main.py lines 122-188)

BeautifulSoup is an external collaborator: its outputs — the document's
anchors in document order (attribute `href`, stripped visible text
`a.get_text(strip=True)`) and the flattened non-blank stripped lines of
`soup.get_text("\n")` — are the inputs of the model. -/

/-- An `<a>` element as `parse_emote_details` reads it. -/
structure Anchor where
  href : List Char
  text : List Char
deriving DecidableEq, Repr

/-- The pattern of the CSS selector on main.py line 128. -/
def twitchPat : List Char := "twitch.tv/".data

/-- `soup.select('a[href*="twitch.tv/"]')`: anchors whose `href` contains
the pattern, in document order. -/
def selectTwitch (anchors : List Anchor) : List Anchor :=
  anchors.filter fun a => isSubstr twitchPat a.href

/-- The loop of main.py lines 128-134: take the first selected anchor with a
truthy `href` and truthy visible text, yielding `(channel_url, channel_label)`. -/
def channelScan (anchors : List Anchor) : Option (List Char) × Option (List Char) :=
  match (selectTwitch anchors).find? (fun a => !a.href.isEmpty && !a.text.isEmpty) with
  | some a => (some a.href, some a.text)
  | none => (none, none)

/-- Python truthiness of an `Optional[str]`. -/
def optTruthy : Option (List Char) → Bool
  | none => false
  | some s => !s.isEmpty

/-- The suffix of `s` after the first occurrence of `p`, when `p` occurs. -/
def afterSub (p : List Char) : List Char → Option (List Char)
  | [] => if p.isEmpty then some [] else none
  | b :: rest =>
    if leadsList p (b :: rest) then some ((b :: rest).drop p.length)
    else afterSub p rest

/-- The `path` component of `urllib.parse.urlparse` for the URL shapes this
service sees: drop any fragment and query, then, when a `://` authority
marker is present, the path starts at the first `/` after it; with no
marker the whole remainder is the path. -/
def urlPath (u : List Char) : List Char :=
  let v := (u.takeWhile (· ≠ '#')).takeWhile (· ≠ '?')
  match afterSub ("://".data) v with
  | some rest => rest.dropWhile (· ≠ '/')
  | none => v

/-- `str.strip("/")`: drop leading and trailing `/` characters. -/
def stripSlashes (s : List Char) : List Char :=
  ((s.dropWhile (· = '/')).reverse.dropWhile (· = '/')).reverse

/-- Channel resolution of main.py lines 125-143: the scan loop, then the
fallback that derives `channel_label` from the URL path when the scan left
the label unset but the URL set. -/
def resolveChannel (anchors : List Anchor) : Option (List Char) × Option (List Char) :=
  let p := channelScan anchors
  if !optTruthy p.2 && optTruthy p.1 then
    match p.1 with
    | some u =>
      let path := stripSlashes (urlPath u)
      if !path.isEmpty then (p.1, some (path.takeWhile (· ≠ '/'))) else p
    | none => p
  else p

/-- Python's `list.index(x, i)` as an `Option`: the first index `j ≥ i`
with `l[j] = x`, or `none` (where `list.index` raises `ValueError`). -/
def listIndexFrom {α : Type} [DecidableEq α] (x : α) : List α → ℕ → Option ℕ
  | [], _ => none
  | a :: as, 0 =>
    if a = x then some 0 else (listIndexFrom x as 0).map (· + 1)
  | _ :: as, i + 1 => (listIndexFrom x as i).map (· + 1)

/-- `BASE_URL` (main.py line 12). -/
def BASE_URL : List Char := "https://pixelbypixel.studio/emotes".data

/-- The literal `"Expires:"` marker line (main.py lines 165 and 173). -/
def expiresMarker : List Char := "Expires:".data

/-- The not-found sentinel (main.py line 152). -/
def notFoundMarker : List Char := "Emote not found".data

/-- The record `parse_emote_details` returns (main.py lines 179-188);
`imageUrl` is absent there and attached afterwards by `api_emote_detail`,
so the extractor model leaves it `none`. -/
structure DetailRecord where
  emoteName : List Char
  channel : Option (List Char)
  channelUrl : Option (List Char)
  source : Option (List Char)
  tier : Option (List Char)
  expires : Option (List Char)
  detailsUrl : List Char
  notFound : Bool
  imageUrl : Option (List Char)
deriving DecidableEq, Repr

/-- Main.py lines 166-167 and 174-175: given the found index of the
`"Expires:"` marker (or `none` for the `ValueError` branch), the following
line when it exists. -/
def lineAfter (lines : List (List Char)) : Option ℕ → Option (List Char)
  | some j => if h : j + 1 < lines.length then some lines[j + 1] else none
  | none => none

/-- `parse_emote_details(emote_name, html)` (main.py lines 122-188) over the
parser-boundary inputs: the document's anchors and the flattened non-blank
stripped lines. -/
def parse_emote_details (emote_name : List Char) (anchors : List Anchor)
    (lines : List (List Char)) : DetailRecord :=
  let ch := resolveChannel anchors
  let joined := List.intercalate ['\n'] lines
  let notFound := isSubstr notFoundMarker joined
  match listIndexFrom emote_name lines 0 with
  | some i =>
    { emoteName := emote_name, channel := ch.2, channelUrl := ch.1,
      source := if h : i + 2 < lines.length then some lines[i + 2] else none,
      tier := if h : i + 3 < lines.length then some lines[i + 3] else none,
      expires := lineAfter lines (listIndexFrom expiresMarker lines i),
      detailsUrl := BASE_URL ++ "?emoteName=".data ++ emote_name,
      notFound := notFound, imageUrl := none }
  | none =>
    { emoteName := emote_name, channel := ch.2, channelUrl := ch.1,
      source := none, tier := none,
      expires := lineAfter lines (listIndexFrom expiresMarker lines 0),
      detailsUrl := BASE_URL ++ "?emoteName=".data ++ emote_name,
      notFound := notFound, imageUrl := none }

/-! ## Detail enrichment (`api_emote_detail`, main.py lines 246-255) -/

/-- The generator-with-default of main.py lines 249-252: the `imageUrl` of
the first cached tile whose name equals the requested name, else `None`. -/
def lookupImage (emote_name : List Char) (tiles : List Tile) : Option (List Char) :=
  match tiles.find? (fun t => t.name = emote_name) with
  | some t => t.imageUrl
  | none => none

/-- The enrichment step of `api_emote_detail` (main.py lines 246-255): run
`ensure_emote_list()` (default max age); when it raises, swallow and set
`imageUrl = None`; otherwise attach the looked-up image.  Returns the
enriched record and the cache state the step leaves behind. -/
def api_emote_detail_attach (now : ℚ) (fetch : FetchResult) (c : ListCache)
    (emote_name : List Char) (data : DetailRecord) : DetailRecord × ListCache :=
  let r := ensure_emote_list DEFAULT_MAX_AGE now fetch c
  match r.2 with
  | .error500 => ({ data with imageUrl := none }, r.1)
  | .error502 => ({ data with imageUrl := none }, r.1)
  | _ => ({ data with imageUrl := lookupImage emote_name r.1.tiles }, r.1)

/-! ## Theorems -/

/-- C2: `ensure_emote_list` performs no refetch iff the cached tiles list is
non-empty and `now - updatedAt` is strictly less than the max age; on a
cache whose tiles list is empty it never returns from cache, whatever the
age. -/
theorem ensure_no_refetch_iff (max_age_seconds now : ℚ) (fetch : FetchResult)
    (c : ListCache) :
    ((ensure_emote_list max_age_seconds now fetch c).2 = .cached ↔
      c.tiles ≠ [] ∧ now - c.updatedAt < max_age_seconds) ∧
    (ensure_emote_list max_age_seconds now fetch { c with tiles := [] }).2 ≠ .cached := by
  constructor
  · by_cases h : c.tiles ≠ [] ∧ now - c.updatedAt < max_age_seconds
    · simp [ensure_emote_list, h]
    · simp only [ensure_emote_list, if_neg h]
      cases fetch with
      | renderError => simp [h]
      | ok tiles =>
        by_cases ht : tiles = [] <;> simp [ht, h]
  · have h : ¬(({ c with tiles := [] } : ListCache).tiles ≠ [] ∧
        now - ({ c with tiles := [] } : ListCache).updatedAt < max_age_seconds) := by
      simp
    simp only [ensure_emote_list, if_neg h]
    cases fetch with
    | renderError => simp
    | ok tiles => by_cases ht : tiles = [] <;> simp [ht]

/-- C3: when the refetch happens (cache not reusable) and extraction yields
zero tiles, `ensure_emote_list` raises the 502 error, resets `updatedAt` to
the sentinel `0`, and leaves the cached tiles list untouched. -/
theorem ensure_zero_tiles_502 (max_age_seconds now : ℚ) (c : ListCache)
    (h : ¬(c.tiles ≠ [] ∧ now - c.updatedAt < max_age_seconds)) :
    ensure_emote_list max_age_seconds now (.ok []) c =
      ({ c with updatedAt := 0 }, .error502) := by
  simp [ensure_emote_list, h]

/-- C3 witness: a stale cache holding one tile, hit by a zero-tile refetch:
502 outcome, `updatedAt` reset to 0, the tile still cached. -/
theorem ensure_zero_tiles_502_witness :
    ¬((⟨7, [{ name := ['a'], imageUrl := none }]⟩ : ListCache).tiles ≠ [] ∧
        (7 : ℚ) - (⟨7, [{ name := ['a'], imageUrl := none }]⟩ : ListCache).updatedAt < 0) ∧
    ensure_emote_list 0 7 (.ok []) ⟨7, [{ name := ['a'], imageUrl := none }]⟩ =
      (⟨0, [{ name := ['a'], imageUrl := none }]⟩, .error502) :=
  ⟨fun h => absurd h.2 (by simp),
   ensure_zero_tiles_502 0 7 ⟨7, [{ name := ['a'], imageUrl := none }]⟩
     (fun h => absurd h.2 (by simp))⟩

/-- C4: when the refetch happens and the render step fails,
`ensure_emote_list` raises the 500 error and mutates neither the tiles list
nor `updatedAt`. -/
theorem ensure_render_error_500 (max_age_seconds now : ℚ) (c : ListCache)
    (h : ¬(c.tiles ≠ [] ∧ now - c.updatedAt < max_age_seconds)) :
    ensure_emote_list max_age_seconds now .renderError c = (c, .error500) := by
  simp [ensure_emote_list, h]

/-- C4 witness: a stale cache holding one tile, hit by a render failure:
500 outcome and the cache state unchanged. -/
theorem ensure_render_error_500_witness :
    ¬((⟨7, [{ name := ['a'], imageUrl := none }]⟩ : ListCache).tiles ≠ [] ∧
        (7 : ℚ) - (⟨7, [{ name := ['a'], imageUrl := none }]⟩ : ListCache).updatedAt < 0) ∧
    ensure_emote_list 0 7 .renderError ⟨7, [{ name := ['a'], imageUrl := none }]⟩ =
      (⟨7, [{ name := ['a'], imageUrl := none }]⟩, .error500) :=
  ⟨fun h => absurd h.2 (by simp),
   ensure_render_error_500 0 7 ⟨7, [{ name := ['a'], imageUrl := none }]⟩
     (fun h => absurd h.2 (by simp))⟩

/-- C10: `api_refresh` clears the cache before refetching, so a failed
forced refetch (render error or zero tiles) ends the call with an empty
tiles list and `updatedAt = 0` — whereas a render failure inside
`ensure_emote_list` itself never changes the cache state it was given. -/
theorem api_refresh_failure_loses_cache (now : ℚ) (c : ListCache) :
    api_refresh now .renderError c = (⟨0, []⟩, .error500) ∧
    api_refresh now (.ok []) c = (⟨0, []⟩, .error502) ∧
    ∀ max_age_seconds : ℚ,
      (ensure_emote_list max_age_seconds now .renderError c).1 = c := by
  refine ⟨by simp [api_refresh, ensure_emote_list],
          by simp [api_refresh, ensure_emote_list], ?_⟩
  intro max_age_seconds
  by_cases h : c.tiles ≠ [] ∧ now - c.updatedAt < max_age_seconds <;>
    simp [ensure_emote_list, h]

/-- C9: when the list refresh inside the enrichment step of
`api_emote_detail` fails (500 or 502), the step degrades to
`imageUrl = none` and leaves every other field of the record unchanged. -/
theorem attach_image_swallows_failure (now : ℚ) (fetch : FetchResult)
    (c : ListCache) (emote_name : List Char) (data : DetailRecord)
    (h : (ensure_emote_list DEFAULT_MAX_AGE now fetch c).2 = .error500 ∨
         (ensure_emote_list DEFAULT_MAX_AGE now fetch c).2 = .error502) :
    (api_emote_detail_attach now fetch c emote_name data).1 =
      { data with imageUrl := none } := by
  rcases h with h | h <;> simp [api_emote_detail_attach, h]

/-- C9 witness: an empty stale cache plus a render failure during
enrichment: the record comes back with `imageUrl = none` and all other
fields intact. -/
theorem attach_image_swallows_failure_witness :
    ((ensure_emote_list DEFAULT_MAX_AGE 0 .renderError ⟨0, []⟩).2 = .error500 ∨
      (ensure_emote_list DEFAULT_MAX_AGE 0 .renderError ⟨0, []⟩).2 = .error502) ∧
    (api_emote_detail_attach 0 .renderError ⟨0, []⟩ ['a']
        ⟨['a'], some ['c'], some ['u'], some ['s'], some ['t'], some ['e'],
         ['d'], false, some ['i']⟩).1 =
      ⟨['a'], some ['c'], some ['u'], some ['s'], some ['t'], some ['e'],
       ['d'], false, none⟩ :=
  ⟨Or.inl (by simp [ensure_emote_list]),
   attach_image_swallows_failure 0 .renderError ⟨0, []⟩ ['a']
     ⟨['a'], some ['c'], some ['u'], some ['s'], some ['t'], some ['e'],
      ['d'], false, some ['i']⟩
     (Or.inl (by simp [ensure_emote_list]))⟩

/-- C8: the search response: an empty query filters nothing, `count` is the
number of matches before truncation, `items` is the first `limit` matches
in the cache's stored order (the filter result is a sublist of the stored
list), and `limit` does not affect `count`. -/
theorem api_emotes_response_spec (q : List Char) (limit : ℕ) (c : ListCache) :
    searchFilter [] c.tiles = c.tiles ∧
    (api_emotes q limit c).count = (searchFilter q c.tiles).length ∧
    (api_emotes q limit c).items = (searchFilter q c.tiles).take limit ∧
    (searchFilter q c.tiles).Sublist c.tiles ∧
    (api_emotes q limit c).count = (api_emotes q 0 c).count := by
  refine ⟨by simp [searchFilter], rfl, rfl, ?_, rfl⟩
  by_cases h : q = []
  · simp [searchFilter, h]
  · simp only [searchFilter, if_neg h]
    exact List.filter_sublist _

/-- `dropWhile` is the identity when no element satisfies the predicate. -/
lemma dropWhile_eq_self_of (p : Char → Bool) (l : List Char)
    (h : ∀ c ∈ l, p c = false) : l.dropWhile p = l := by
  cases l with
  | nil => rfl
  | cons a l => simp [List.dropWhile_cons, h a (by simp)]

/-- `pyStrip` is the identity on whitespace-free strings. -/
lemma pyStrip_eq_self {w : List Char} (h : ∀ c ∈ w, isSpaceChar c = false) :
    pyStrip w = w := by
  have h1 : w.dropWhile isSpaceChar = w := dropWhile_eq_self_of _ _ h
  have h2 : w.reverse.dropWhile isSpaceChar = w.reverse :=
    dropWhile_eq_self_of _ _ (fun c hc => h c (List.mem_reverse.mp hc))
  unfold pyStrip
  rw [h1, h2, List.reverse_reverse]

/-- Every word `pySplitAux` produces is non-empty and whitespace-free. -/
lemma pySplitAux_words (s : List Char) :
    ∀ acc, (∀ c ∈ acc, isSpaceChar c = false) →
      ∀ w ∈ pySplitAux s acc, w ≠ [] ∧ ∀ c ∈ w, isSpaceChar c = false := by
  induction s with
  | nil =>
    intro acc hacc w hw
    by_cases h : acc.isEmpty
    · simp [pySplitAux, h] at hw
    · simp only [pySplitAux, if_neg h, List.mem_singleton] at hw
      subst hw
      refine ⟨?_, fun c hc => hacc c (List.mem_reverse.mp hc)⟩
      rw [Ne, List.reverse_eq_nil_iff]
      exact List.isEmpty_eq_false.mp (Bool.not_eq_true _ ▸ h)
  | cons a as ih =>
    intro acc hacc w hw
    by_cases hsp : isSpaceChar a = true
    · by_cases h : acc.isEmpty
      · simp only [pySplitAux, hsp, if_true, h] at hw
        exact ih [] (by simp) w hw
      · simp only [pySplitAux, hsp, if_true, if_neg h, List.mem_cons] at hw
        rcases hw with rfl | hw
        · refine ⟨?_, fun c hc => hacc c (List.mem_reverse.mp hc)⟩
          rw [Ne, List.reverse_eq_nil_iff]
          exact List.isEmpty_eq_false.mp (Bool.not_eq_true _ ▸ h)
        · exact ih [] (by simp) w hw
    · simp only [pySplitAux, hsp, if_false] at hw
      refine ih (a :: acc) ?_ w hw
      intro c hc
      rcases List.mem_cons.mp hc with rfl | hc
      · exact Bool.not_eq_true _ ▸ hsp
      · exact hacc c hc

/-- C1: a stored tile is in the `api_emotes` match set iff, for every
whitespace-separated term of the query, the normalization of the term is a
substring of the normalization of the tile's name. -/
theorem search_match_iff (q : List Char) (tiles : List Tile) (t : Tile)
    (ht : t ∈ tiles) :
    t ∈ searchFilter q tiles ↔
      ∀ term ∈ pySplit q, isSubstr (norm term) (norm t.name) = true := by
  by_cases hq : q = []
  · subst hq
    simp [searchFilter, ht, pySplit, pySplitAux]
  · simp only [searchFilter, if_neg hq]
    rw [List.mem_filter]
    simp only [ht, true_and]
    rw [List.all_eq_true]
    constructor
    · intro h term hterm
      have hw := pySplitAux_words q [] (by simp) term hterm
      have hne : pyStrip term ≠ [] := by
        rw [pyStrip_eq_self hw.2]; exact hw.1
      exact h (norm term)
        (List.mem_map_of_mem _ (List.mem_filter.mpr ⟨hterm, by simpa using hne⟩))
    · intro h x hx
      obtain ⟨term, hterm, rfl⟩ := List.mem_map.mp hx
      exact h term (List.mem_filter.mp hterm).1

/-- C1 witness: the tile "Golden Goat" matches the query "golden goat". -/
theorem search_match_iff_witness :
    ({ name := "Golden Goat".data, imageUrl := none } : Tile) ∈
      [({ name := "Golden Goat".data, imageUrl := none } : Tile)] ∧
    (({ name := "Golden Goat".data, imageUrl := none } : Tile) ∈
        searchFilter "golden goat".data
          [{ name := "Golden Goat".data, imageUrl := none }] ↔
      ∀ term ∈ pySplit "golden goat".data,
        isSubstr (norm term)
          (norm ({ name := "Golden Goat".data, imageUrl := none } : Tile).name) = true) :=
  ⟨by decide,
   search_match_iff "golden goat".data
     [{ name := "Golden Goat".data, imageUrl := none }]
     { name := "Golden Goat".data, imageUrl := none } (by decide)⟩

/-! ## C6: the stored-list pipeline versus the claim's wording -/

/-- The dedup pass exactly as claim C6 words it (for comparison with
`dedupTiles`, which is read off the source): drop empty names, de-duplicate
by exact case-sensitive name, first occurrence wins — with no stripping. -/
def claimDedup (seen : List (List Char)) : List Tile → List Tile
  | [] => []
  | t :: rest =>
    if t.name = [] ∨ t.name ∈ seen then claimDedup seen rest
    else t :: claimDedup (t.name :: seen) rest

/-- The stored-list pipeline exactly as claim C6 words it: drop empty
names, de-duplicate (first wins), sort by the case-insensitive name key. -/
def claimStoredList (raw : List Tile) : List Tile :=
  sortTiles tileLe (claimDedup [] raw)

/-- The source's dedup pass equals the claim's dedup pass applied to the
raw tiles with their names stripped first. -/
lemma dedupTiles_eq_claimDedup (raw : List Tile) :
    ∀ seen, dedupTiles seen raw =
      claimDedup seen
        (raw.map fun t => { name := pyStrip t.name, imageUrl := t.imageUrl }) := by
  induction raw with
  | nil => intro seen; rfl
  | cons t rest ih =>
    intro seen
    simp only [List.map_cons, dedupTiles, claimDedup]
    by_cases h : pyStrip t.name = [] ∨ pyStrip t.name ∈ seen
    · rw [if_pos h, if_pos h, ih]
    · rw [if_neg h, if_neg h, ih]

/-- The dedup pass yields pairwise-distinct names, none of them in `seen`. -/
lemma dedupTiles_names_distinct (raw : List Tile) :
    ∀ seen, (dedupTiles seen raw).Pairwise (fun a b => a.name ≠ b.name) ∧
      ∀ t ∈ dedupTiles seen raw, t.name ∉ seen := by
  induction raw with
  | nil => intro seen; exact ⟨List.Pairwise.nil, by simp [dedupTiles]⟩
  | cons t rest ih =>
    intro seen
    simp only [dedupTiles]
    by_cases h : pyStrip t.name = [] ∨ pyStrip t.name ∈ seen
    · rw [if_pos h]; exact ih seen
    · rw [if_neg h]
      obtain ⟨hp, hs⟩ := ih (pyStrip t.name :: seen)
      push_neg at h
      constructor
      · refine List.Pairwise.cons ?_ hp
        intro b hb heq
        exact hs b hb (heq ▸ List.mem_cons_self _ _)
      · intro u hu
        rcases List.mem_cons.mp hu with rfl | hu
        · exact h.2
        · exact fun hmem => hs u hu (List.mem_cons_of_mem _ hmem)

/-- Stable insertion permutes. -/
lemma insertSorted_perm (le : Tile → Tile → Bool) (a : Tile) (l : List Tile) :
    List.Perm (insertSorted le a l) (a :: l) := by
  induction l with
  | nil => exact List.Perm.refl _
  | cons b l ih =>
    simp only [insertSorted]
    by_cases h : le a b = true
    · rw [if_pos h]
    · rw [if_neg h]
      exact (ih.cons b).trans (List.Perm.swap a b l)

/-- The stable sort permutes. -/
lemma sortTiles_perm (le : Tile → Tile → Bool) (l : List Tile) :
    List.Perm (sortTiles le l) l := by
  induction l with
  | nil => exact List.Perm.refl _
  | cons a l ih =>
    exact (insertSorted_perm le a (sortTiles le l)).trans (ih.cons a)

/-- C6 counterexample: on the raw pair list `[(" ", null)]` the source
stores nothing — the name strips to empty and is dropped — while the
claim's pipeline (which never strips) keeps the tile. -/
theorem storedTiles_ne_claimStoredList :
    storedTiles [{ name := [' '], imageUrl := none }] ≠
      claimStoredList [{ name := [' '], imageUrl := none }] := by decide

/-- C6 amended: raw names are first stripped of surrounding whitespace
(tiles whose name strips to empty are dropped, and dedup keys on the
stripped name); after that the claim's pipeline describes the stored list
exactly, no two stored tiles share a name, and the spec's dedup-sort
example holds. -/
theorem storedTiles_spec (raw : List Tile) :
    storedTiles raw =
      claimStoredList
        (raw.map fun t => { name := pyStrip t.name, imageUrl := t.imageUrl }) ∧
    (storedTiles raw).Pairwise (fun a b => a.name ≠ b.name) ∧
    storedTiles
        [{ name := "Zeta".data, imageUrl := some "u1".data },
         { name := "Alpha".data, imageUrl := some "u2".data },
         { name := "Zeta".data, imageUrl := some "u3".data }] =
      [{ name := "Alpha".data, imageUrl := some "u2".data },
       { name := "Zeta".data, imageUrl := some "u1".data }] := by
  refine ⟨?_, ?_, by decide⟩
  · unfold storedTiles claimStoredList
    rw [dedupTiles_eq_claimDedup]
  · unfold storedTiles
    exact (List.Perm.pairwise_iff (fun h => Ne.symm h)
        (sortTiles_perm tileLe (dedupTiles [] raw))).mpr
      (dedupTiles_names_distinct raw []).1

/-! ## C5: positional detail extraction -/

/-- The guarded positional read is exactly `getElem?`. -/
lemma dite_some_getElem {α : Type} (l : List α) (n : ℕ) :
    (if h : n < l.length then some l[n] else none) = l[n]? := by
  by_cases h : n < l.length
  · rw [dif_pos h, List.getElem?_eq_getElem h]
  · rw [dif_neg h, List.getElem?_eq_none (Nat.le_of_not_lt h)]

lemma lineAfter_some (lines : List (List Char)) (j : ℕ) :
    lineAfter lines (some j) = lines[j + 1]? :=
  dite_some_getElem lines (j + 1)

/-- `listIndexFrom` finds exactly the first index `≥ i` holding `x`. -/
lemma listIndexFrom_eq_some_iff {α : Type} [DecidableEq α] (x : α) (l : List α) :
    ∀ i j : ℕ, listIndexFrom x l i = some j ↔
      i ≤ j ∧ l[j]? = some x ∧ ∀ k, i ≤ k → k < j → l[k]? ≠ some x := by
  induction l with
  | nil =>
    intro i j
    simp [listIndexFrom]
  | cons a as ih =>
    intro i j
    cases i with
    | zero =>
      by_cases hax : a = x
      · subst hax
        simp only [listIndexFrom, if_pos rfl]
        constructor
        · intro h
          obtain rfl := Option.some.inj h
          exact ⟨Nat.zero_le _, by simp, fun k _ hk => absurd hk (Nat.not_lt_zero k)⟩
        · rintro ⟨-, hjx, hall⟩
          cases j with
          | zero => rfl
          | succ j' =>
            exact absurd (by simp : (a :: as)[0]? = some a)
              (hall 0 (Nat.zero_le _) (Nat.succ_pos _))
      · simp only [listIndexFrom, if_neg hax, Option.map_eq_some']
        constructor
        · rintro ⟨j', hj', rfl⟩
          obtain ⟨-, hjx, hall⟩ := (ih 0 j').mp hj'
          refine ⟨Nat.zero_le _, by simpa using hjx, ?_⟩
          intro k _ hk
          cases k with
          | zero => simpa using hax
          | succ k' =>
            simpa using hall k' (Nat.zero_le _) (Nat.lt_of_succ_lt_succ hk)
        · rintro ⟨-, hjx, hall⟩
          cases j with
          | zero =>
            rw [List.getElem?_cons_zero] at hjx
            exact absurd (Option.some.inj hjx) hax
          | succ j' =>
            refine ⟨j', (ih 0 j').mpr ⟨Nat.zero_le _, by simpa using hjx, ?_⟩, rfl⟩
            intro k _ hk
            simpa using hall (k + 1) (Nat.zero_le _) (Nat.succ_lt_succ hk)
    | succ i' =>
      simp only [listIndexFrom, Option.map_eq_some']
      constructor
      · rintro ⟨j', hj', rfl⟩
        obtain ⟨hij, hjx, hall⟩ := (ih i' j').mp hj'
        refine ⟨Nat.succ_le_succ hij, by simpa using hjx, ?_⟩
        intro k hk1 hk2
        cases k with
        | zero => exact absurd hk1 (Nat.not_succ_le_zero i')
        | succ k' =>
          simpa using hall k' (Nat.le_of_succ_le_succ hk1) (Nat.lt_of_succ_lt_succ hk2)
      · rintro ⟨hij, hjx, hall⟩
        cases j with
        | zero => exact absurd hij (Nat.not_succ_le_zero i')
        | succ j' =>
          refine ⟨j', (ih i' j').mpr
            ⟨Nat.le_of_succ_le_succ hij, by simpa using hjx, ?_⟩, rfl⟩
          intro k hk1 hk2
          simpa using hall (k + 1) (Nat.succ_le_succ hk1) (Nat.succ_lt_succ hk2)

/-- `listIndexFrom` fails exactly when no index `≥ i` holds `x`. -/
lemma listIndexFrom_eq_none_iff {α : Type} [DecidableEq α] (x : α) (l : List α)
    (i : ℕ) :
    listIndexFrom x l i = none ↔ ∀ k, i ≤ k → l[k]? ≠ some x := by
  constructor
  · intro h k hk hkx
    have hex : ∃ m, i ≤ m ∧ l[m]? = some x := ⟨k, hk, hkx⟩
    have hspec := Nat.find_spec hex
    have hsome : listIndexFrom x l i = some (Nat.find hex) :=
      (listIndexFrom_eq_some_iff x l i _).mpr
        ⟨hspec.1, hspec.2, fun m him hm hmx => Nat.find_min hex hm ⟨him, hmx⟩⟩
    rw [h] at hsome
    exact Option.noConfusion hsome
  · intro h
    cases heq : listIndexFrom x l i with
    | none => rfl
    | some j =>
      obtain ⟨hij, hjx, -⟩ := (listIndexFrom_eq_some_iff x l i j).mp heq
      exact absurd hjx (h j hij)

/-- The expiration read: the extractor yields `some e` exactly when some
index `j ≥ i` holds the first `"Expires:"` marker from `i` on and the line
`j + 1` exists and is `e`. -/
lemma lineAfter_marker_iff (lines : List (List Char)) (i : ℕ) (e : List Char) :
    lineAfter lines (listIndexFrom expiresMarker lines i) = some e ↔
      ∃ j, i ≤ j ∧ lines[j]? = some expiresMarker ∧ lines[j + 1]? = some e ∧
        ∀ k, i ≤ k → k < j → lines[k]? ≠ some expiresMarker := by
  cases hE : listIndexFrom expiresMarker lines i with
  | none =>
    rw [listIndexFrom_eq_none_iff] at hE
    simp only [lineAfter]
    constructor
    · intro h; exact Option.noConfusion h
    · rintro ⟨j, hij, hjm, -, -⟩; exact absurd hjm (hE j hij)
  | some j =>
    obtain ⟨hij, hjm, hmin⟩ := (listIndexFrom_eq_some_iff _ _ _ _).mp hE
    rw [lineAfter_some]
    constructor
    · intro he
      exact ⟨j, hij, hjm, he, hmin⟩
    · rintro ⟨j', hij', hjm', hje', hmin'⟩
      have hjj : j = j' := by
        rcases Nat.lt_trichotomy j j' with h | h | h
        · exact absurd hjm (hmin' j hij h)
        · exact h
        · exact absurd hjm' (hmin j' hij' h)
      rw [hjj]; exact hje'

/-- The spec's six flattened example lines. -/
def exampleLines : List (List Char) :=
  ["Golden Goat".data, "SomeChannel".data, "Sub Gift".data, "Tier 3".data,
   "Expires:".data, "2025-01-01".data]

/-- C5: when the requested name first occurs at index `i` of the flattened
lines, the extractor reads `source` at `i + 2` and `tier` at `i + 3`
(absent indices give `none`); `expires` is the line after the first
`"Expires:"` marker at index `≥ i` and `none` when no such marker-plus-line
exists; when the name is absent the marker search starts from the start;
and the spec's six-line example evaluates as stated. -/
theorem parse_details_positional (emote_name : List Char) (anchors : List Anchor)
    (lines : List (List Char)) (i : ℕ)
    (hi : lines[i]? = some emote_name)
    (hfirst : ∀ k < i, lines[k]? ≠ some emote_name) :
    (parse_emote_details emote_name anchors lines).source = lines[i + 2]? ∧
    (parse_emote_details emote_name anchors lines).tier = lines[i + 3]? ∧
    (∀ e, (parse_emote_details emote_name anchors lines).expires = some e ↔
      ∃ j, i ≤ j ∧ lines[j]? = some expiresMarker ∧ lines[j + 1]? = some e ∧
        ∀ k, i ≤ k → k < j → lines[k]? ≠ some expiresMarker) ∧
    (∀ (name' : List Char) (lines' : List (List Char)), name' ∉ lines' →
      ∀ e, (parse_emote_details name' anchors lines').expires = some e ↔
        ∃ j, lines'[j]? = some expiresMarker ∧ lines'[j + 1]? = some e ∧
          ∀ k < j, lines'[k]? ≠ some expiresMarker) ∧
    ((parse_emote_details "Golden Goat".data [] exampleLines).source =
        some "Sub Gift".data ∧
      (parse_emote_details "Golden Goat".data [] exampleLines).tier =
        some "Tier 3".data ∧
      (parse_emote_details "Golden Goat".data [] exampleLines).expires =
        some "2025-01-01".data ∧
      (parse_emote_details "Golden Goat".data [] exampleLines).notFound = false) := by
  have hidx : listIndexFrom emote_name lines 0 = some i :=
    (listIndexFrom_eq_some_iff emote_name lines 0 i).mpr
      ⟨Nat.zero_le _, hi, fun k _ hk => hfirst k hk⟩
  refine ⟨?_, ?_, ?_, ?_, by decide⟩
  · simp only [parse_emote_details, hidx]
    exact dite_some_getElem lines (i + 2)
  · simp only [parse_emote_details, hidx]
    exact dite_some_getElem lines (i + 3)
  · intro e
    simp only [parse_emote_details, hidx]
    exact lineAfter_marker_iff lines i e
  · intro name' lines' habs e
    have hnone : listIndexFrom name' lines' 0 = none := by
      rw [listIndexFrom_eq_none_iff]
      exact fun k _ hk => habs (List.getElem?_mem hk)
    simp only [parse_emote_details, hnone]
    rw [lineAfter_marker_iff lines' 0 e]
    constructor
    · rintro ⟨j, -, hjm, hje, hmin⟩
      exact ⟨j, hjm, hje, fun k hk => hmin k (Nat.zero_le _) hk⟩
    · rintro ⟨j, hjm, hje, hmin⟩
      exact ⟨j, Nat.zero_le _, hjm, hje, fun k _ hk => hmin k hk⟩

/-- C5 witness: the six-line example, where "Golden Goat" first occurs at
index 0 and `source` is read two lines below it. -/
theorem parse_details_positional_witness :
    exampleLines[0]? = some "Golden Goat".data ∧
    (parse_emote_details "Golden Goat".data [] exampleLines).source =
      exampleLines[0 + 2]? :=
  ⟨by decide,
   (parse_details_positional "Golden Goat".data [] exampleLines 0 (by decide)
     (by decide)).1⟩

/-! ## C7: channel resolution and its unreachable fallback -/

/-- C7 (code bug): the loop on main.py lines 128-134 only ever assigns
`channel_url` together with a non-empty `channel_label`, so the fallback on
lines 137-143 (its own comment: "derive channel from URL path if link has
no text") can never run: `resolveChannel` always equals the bare scan, and
on a document whose only twitch link has no visible text it yields
`(none, none)` instead of a path-derived label. -/
theorem resolveChannel_fallback_unreachable :
    resolveChannel [{ href := "https://twitch.tv/somechannel".data, text := [] }] =
      (none, none) ∧
    ∀ anchors : List Anchor, resolveChannel anchors = channelScan anchors := by
  refine ⟨by decide, ?_⟩
  intro anchors
  unfold resolveChannel
  cases hfind : (selectTwitch anchors).find?
      (fun a => !a.href.isEmpty && !a.text.isEmpty) with
  | none => simp [channelScan, hfind, optTruthy]
  | some a =>
    have hpred := List.find?_some hfind
    rw [Bool.and_eq_true] at hpred
    have htext : a.text.isEmpty = false := by
      have := hpred.2
      rwa [Bool.not_eq_true'] at this
    simp [channelScan, hfind, optTruthy, htext]

end PBPS
